import Mathlib

/-!
Verification of the data normalization and region-reduction pipeline of
`scripts/process_data.py` (load_energy, select_region, build_eu_us_energy,
write_outputs, main) against its specification.

The embedding models a pandas DataFrame as a `Frame`: a list of column
names together with rows represented as association lists from column
name to `Cell`.  A cell is either a text value or a nullable numeric
value (floats are modelled by rationals; the pipeline performs no
arithmetic on them, only equality and ordering, so this is faithful).
Python exceptions are modelled by `Except Err`.
-/

/-- A single table cell: text, or a nullable numeric value. -/
inductive Cell where
  | str (s : String)
  | num (q : Option ℚ)
deriving DecidableEq

/-- One row of a table: an association list from column name to cell. -/
abbrev Row := List (String × Cell)

/-- A tabular frame: named columns plus rows. -/
structure Frame where
  cols : List String
  rows : List Row
deriving DecidableEq

/-- Default frame used for out-of-range store reads. -/
def FrameD : Frame := ⟨[], []⟩

/-- The error taxonomy of the pipeline: the two `RuntimeError`s raised by
`process_data.py` (schema failure in `load_energy`, unresolved region in
`select_region`) plus the pandas `KeyError`/`ValueError` that column
selection and `insert` can raise. -/
inductive Err where
  | schemaError (missing : List String)
  | unresolvedRegion (names : List String)
  | keyError (cols : List String)
  | insertError (c : String)
deriving DecidableEq

/-- A single-quote character, used to render Python list reprs. -/
def pyQuote : String := String.singleton (Char.ofNat 39)

/-- Python `repr` of a list of strings, as interpolated by an f-string. -/
def pyStrList (l : List String) : String :=
  "[" ++ String.intercalate ", " (l.map (fun s => pyQuote ++ s ++ pyQuote)) ++ "]"

/-- The human-readable message attached to each error, mirroring the
f-strings in `process_data.py`. -/
def errMsg : Err → String
  | .schemaError m =>
      "Missing expected columns in energy dataset: " ++ pyStrList m ++
        ". Update processing logic."
  | .unresolvedRegion names =>
      "None of the region names found in dataset: " ++ pyStrList names
  | .keyError cs => pyStrList cs
  | .insertError c => "cannot insert " ++ c ++ ", already exists"

/-- The `expected_cols` list of `load_energy` (lines 25-33). -/
def expectedCols : List String :=
  ["country", "year", "nuclear_share_energy", "renewables_share_energy",
   "fossil_share_energy", "low_carbon_share_energy", "primary_energy_consumption"]

/-- `load_energy` (lines 21-39): the CSV has been parsed into `df`; check
that every expected column is present, raising a schema error listing the
missing ones otherwise. -/
def load_energy (df : Frame) : Except Err Frame :=
  let missing := expectedCols.filter (fun c => !(df.cols.contains c))
  if missing.isEmpty then .ok df else .error (.schemaError missing)

/-- First cell stored under column name `c` in row `r` (pandas rows have
each column exactly once). -/
def cellOf (c : String) : Row → Option Cell
  | [] => none
  | (k, v) :: r => if k = c then some v else cellOf c r

/-- The row-level predicate `df["country"] == n` (NaN compares unequal to
any string, as in pandas). -/
def countryIs (n : String) (r : Row) : Bool :=
  cellOf "country" r == some (Cell.str n)

/-- `n in set(df["country"])` (line 43). -/
def hasRowB (df : Frame) (n : String) : Bool := df.rows.any (countryIs n)

/-- The EU alias list of line 53, in priority order. -/
def euNames : List String := ["European Union (27)", "European Union"]

/-- The US alias list of line 54. -/
def usNames : List String := ["United States"]

/-- `select_region` (lines 42-49): keep the aliases with at least one
matching row, fail if none matches, otherwise take the first, filter the
frame to that entity and insert a `region` column at position 0 holding
the chosen alias.  Accessing `df["country"]` on a frame without that
column is a `KeyError`, and `insert` on a frame that already has a
`region` column is a `ValueError`. -/
def select_region (df : Frame) (names : List String) : Except Err Frame :=
  if !(df.cols.contains "country") then .error (.keyError ["country"])
  else
    match names.filter (hasRowB df) with
    | [] => .error (.unresolvedRegion names)
    | a :: _ =>
      if df.cols.contains "region" then .error (.insertError "region")
      else
        .ok { cols := "region" :: df.cols,
              rows := (df.rows.filter (countryIs a)).map
                        (fun r => ("region", Cell.str a) :: r) }

/-- The missing-cell value (pandas NaN). -/
def dCell : Cell := Cell.num none

/-- Re-key a row to exactly the columns `cs`, reading each cell from `r`
(missing cells become NaN), as pandas column selection and `concat` do. -/
def reindex (cs : List String) (r : Row) : Row :=
  cs.map (fun c => (c, (cellOf c r).getD dCell))

/-- `f[cs]` column projection (lines 65-66): `KeyError` listing the
requested columns that are absent, otherwise the frame restricted to
exactly the columns `cs`. -/
def project (f : Frame) (cs : List String) : Except Err Frame :=
  let miss := cs.filter (fun c => !(f.cols.contains c))
  if miss.isEmpty then .ok { cols := cs, rows := f.rows.map (reindex cs) }
  else .error (.keyError miss)

/-- Overwrite the cell stored under `c` in row `r` with `v`. -/
def setCell (r : Row) (c : String) (v : Cell) : Row :=
  r.map (fun p => if p.1 = c then (c, v) else p)

/-- `f[c] = v` scalar column assignment (lines 68-69): overwrite the
column if present, append it otherwise. -/
def Frame.setCol (f : Frame) (c : String) (v : Cell) : Frame :=
  if f.cols.contains c then
    { cols := f.cols, rows := f.rows.map (fun r => setCell r c v) }
  else
    { cols := f.cols ++ [c], rows := f.rows.map (fun r => r ++ [(c, v)]) }

/-- `pd.concat([f, g], ignore_index=True)` (line 71): union of columns in
order of first appearance, rows of `f` then rows of `g`, missing cells
filled with NaN. -/
def Frame.concat (f g : Frame) : Frame :=
  let cols := f.cols ++ g.cols.filter (fun c => !(f.cols.contains c))
  { cols := cols, rows := (f.rows ++ g.rows).map (reindex cols) }

/-- The primary sort key of `sort_values(["region", "year"])`: the value
of the `region` column as a string. -/
def regionKey (r : Row) : String :=
  match cellOf "region" r with
  | some (Cell.str s) => s
  | _ => ""

/-- The secondary sort key: the numeric `year` value, with NaN (and any
non-numeric cell) sorting last, as pandas' default `na_position` does. -/
def yearKey (r : Row) : WithTop ℚ :=
  match cellOf "year" r with
  | some (Cell.num (some q)) => (q : WithTop ℚ)
  | _ => ⊤

/-- Code-point lexicographic comparison of character lists: this is how
Python compares strings. -/
def chListLtB : List Char → List Char → Bool
  | [], [] => false
  | [], _ :: _ => true
  | _ :: _, [] => false
  | a :: as, b :: bs =>
    if a.toNat < b.toNat then true
    else if b.toNat < a.toNat then false
    else chListLtB as bs

/-- Strict lexicographic (code-point) order on strings. -/
def strLtB (a b : String) : Bool := chListLtB a.data b.data

/-- Row comparison used by `sort_values(["region", "year"])`: region
lexically first, then year ascending with NaN last. -/
def rowLeB (a b : Row) : Bool :=
  strLtB (regionKey a) (regionKey b) ||
    (regionKey a == regionKey b && decide (yearKey a ≤ yearKey b))

/-- The sort order as a relation. -/
def rowLE (a b : Row) : Prop := rowLeB a b = true

instance : DecidableRel rowLE :=
  fun a b => inferInstanceAs (Decidable (rowLeB a b = true))

lemma charToNat_inj {a b : Char} (h : a.toNat = b.toNat) : a = b :=
  Char.ext (UInt32.ext h)

lemma chListLtB_total : ∀ x y : List Char,
    chListLtB x y = true ∨ x = y ∨ chListLtB y x = true := by
  intro x
  induction x with
  | nil =>
    intro y
    cases y with
    | nil => exact Or.inr (Or.inl rfl)
    | cons b bs => exact Or.inl rfl
  | cons a as ih =>
    intro y
    cases y with
    | nil => exact Or.inr (Or.inr rfl)
    | cons b bs =>
      rcases Nat.lt_trichotomy a.toNat b.toNat with h | h | h
      · left; simp [chListLtB, h]
      · have hab : a = b := charToNat_inj h
        subst hab
        rcases ih bs with h' | h' | h'
        · left; simp [chListLtB, h']
        · right; left; rw [h']
        · right; right; simp [chListLtB, h']
      · right; right; simp [chListLtB, h]

lemma chListLtB_trans : ∀ x y z : List Char,
    chListLtB x y = true → chListLtB y z = true → chListLtB x z = true := by
  intro x
  induction x with
  | nil =>
    intro y z hxy hyz
    cases y with
    | nil => simp [chListLtB] at hxy
    | cons b bs =>
      cases z with
      | nil => simp [chListLtB] at hyz
      | cons c cs => simp [chListLtB]
  | cons a as ih =>
    intro y z hxy hyz
    cases y with
    | nil => simp [chListLtB] at hxy
    | cons b bs =>
      cases z with
      | nil => simp [chListLtB] at hyz
      | cons c cs =>
        by_cases h1 : a.toNat < b.toNat
        · by_cases h2 : b.toNat < c.toNat
          · have h3 : a.toNat < c.toNat := Nat.lt_trans h1 h2
            simp [chListLtB, h3]
          · by_cases h3 : c.toNat < b.toNat
            · simp [chListLtB, h2, h3] at hyz
            · have hbc : b.toNat = c.toNat :=
                Nat.le_antisymm (Nat.not_lt.mp h3) (Nat.not_lt.mp h2)
              have h4 : a.toNat < c.toNat := hbc ▸ h1
              simp [chListLtB, h4]
        · by_cases h1' : b.toNat < a.toNat
          · simp [chListLtB, h1, h1'] at hxy
          · have hab : a = b :=
              charToNat_inj (Nat.le_antisymm (Nat.not_lt.mp h1') (Nat.not_lt.mp h1))
            subst hab
            simp only [chListLtB, Nat.lt_irrefl, if_false] at hxy
            by_cases h2 : a.toNat < c.toNat
            · simp [chListLtB, h2]
            · by_cases h2' : c.toNat < a.toNat
              · simp [chListLtB, h2, h2'] at hyz
              · have hac : a = c :=
                  charToNat_inj (Nat.le_antisymm (Nat.not_lt.mp h2') (Nat.not_lt.mp h2))
                subst hac
                simp only [chListLtB, Nat.lt_irrefl, if_false] at hyz ⊢
                exact ih bs cs hxy hyz

lemma strLtB_total (a b : String) :
    strLtB a b = true ∨ a = b ∨ strLtB b a = true := by
  obtain ⟨la⟩ := a
  obtain ⟨lb⟩ := b
  rcases chListLtB_total la lb with h | h | h
  · exact Or.inl h
  · exact Or.inr (Or.inl (by rw [h]))
  · exact Or.inr (Or.inr h)

lemma strLtB_trans {a b c : String} (h₁ : strLtB a b = true)
    (h₂ : strLtB b c = true) : strLtB a c = true :=
  chListLtB_trans a.data b.data c.data h₁ h₂

instance : IsTotal Row rowLE := ⟨by
  intro a b
  unfold rowLE rowLeB
  simp only [Bool.or_eq_true, Bool.and_eq_true, beq_iff_eq, decide_eq_true_eq]
  rcases strLtB_total (regionKey a) (regionKey b) with h | h | h
  · exact Or.inl (Or.inl h)
  · rcases le_total (yearKey a) (yearKey b) with hy | hy
    · exact Or.inl (Or.inr ⟨h, hy⟩)
    · exact Or.inr (Or.inr ⟨h.symm, hy⟩)
  · exact Or.inr (Or.inl h)⟩

instance : IsTrans Row rowLE := ⟨by
  intro a b c hab hbc
  unfold rowLE rowLeB at *
  simp only [Bool.or_eq_true, Bool.and_eq_true, beq_iff_eq, decide_eq_true_eq] at *
  rcases hab with h1 | ⟨h1, hy1⟩
  · rcases hbc with h2 | ⟨h2, hy2⟩
    · exact Or.inl (strLtB_trans h1 h2)
    · exact Or.inl (h2 ▸ h1)
  · rcases hbc with h2 | ⟨h2, hy2⟩
    · exact Or.inl (h1 ▸ h2)
    · exact Or.inr ⟨h1.trans h2, le_trans hy1 hy2⟩⟩

/-- Sort rows by (region, year) ascending. -/
def sortRows (l : List Row) : List Row := List.insertionSort rowLE l

/-- `combined.sort_values(["region", "year"], inplace=True)` (line 72):
`KeyError` if a sort column is absent, otherwise sort the rows. -/
def sortFrame (f : Frame) : Except Err Frame :=
  if f.cols.contains "region" && f.cols.contains "year" then
    .ok { cols := f.cols, rows := sortRows f.rows }
  else .error (.keyError (["region", "year"].filter (fun c => !(f.cols.contains c))))

/-- The `keep_cols` list of lines 56-64. -/
def keepCols : List String :=
  ["region", "year", "nuclear_share_energy", "renewables_share_energy",
   "fossil_share_energy", "low_carbon_share_energy", "primary_energy_consumption"]

/-- The six non-region output columns, whose values pass through from the
raw data. -/
def numCols : List String := keepCols.tail

/-- `build_eu_us_energy` (lines 52-73): select both regions, project to
`keep_cols`, rename the region labels to the canonical codes, concatenate
and sort. -/
def build_eu_us_energy (df : Frame) : Except Err Frame :=
  match select_region df euNames with
  | .error e => .error e
  | .ok eu0 =>
    match select_region df usNames with
    | .error e => .error e
    | .ok us0 =>
      match project eu0 keepCols with
      | .error e => .error e
      | .ok eu1 =>
        match project us0 keepCols with
        | .error e => .error e
        | .ok us1 =>
          sortFrame (Frame.concat (eu1.setCol "region" (Cell.str "EU27"))
                                  (us1.setCol "region" (Cell.str "US")))

/-- The pure alias resolver of the source: first alias present in the
data (`present[0]` at line 46), if any. -/
def chosenAlias (df : Frame) (names : List String) : Option String :=
  (names.filter (hasRowB df)).head?

/-- Render a cell for CSV output. -/
def cellCsv : Cell → String
  | .str s => s
  | .num none => ""
  | .num (some q) => toString q

/-- `df.to_csv(out_csv, index=False)` (line 79): header line then one
line per row, no index column. -/
def toCsv (f : Frame) : String :=
  String.intercalate "\n"
    ((String.intercalate "," f.cols) ::
      f.rows.map (fun r => String.intercalate "," (r.map (fun p => cellCsv p.2)))) ++ "\n"

/-- The metadata record of lines 81-88. -/
structure Metadata where
  generated_at : String
  sources : List (String × String)
  notes : String
deriving DecidableEq

/-- Construct the metadata record from the run timestamp (the
`datetime.utcnow().isoformat()` part is the parameter `ts`). -/
def write_meta (ts : String) : Metadata :=
  { generated_at := ts ++ "Z",
    sources := [("owid_energy", "https://github.com/owid/energy-data"),
                ("owid_co2", "https://github.com/owid/co2-data")],
    notes := "Shares are OWID-provided shares of primary energy. EU is taken from the aggregated European Union entity if present." }

/-- Deterministic serialization of the metadata record (`json.dumps`). -/
def renderMeta (m : Metadata) : String :=
  "generated_at: " ++ m.generated_at ++ "; sources: " ++
    String.intercalate ", " (m.sources.map (fun p => p.1 ++ "=" ++ p.2)) ++
    "; notes: " ++ m.notes

/-- The two output files of the pipeline. -/
structure FS where
  csvFile : Option String
  metaFile : Option String
deriving DecidableEq

/-- `write_outputs` (lines 76-89): write the normalized CSV, then the
metadata file, both full overwrites. -/
def write_outputs (f : Frame) (ts : String) (fs : FS) : FS :=
  let fs1 : FS := { fs with csvFile := some (toCsv f) }
  { fs1 with metaFile := some (renderMeta (write_meta ts)) }

/-- `main` (lines 92-97): load, reduce, write, exit 0; an uncaught
exception leaves the filesystem as it was and the process exits
non-zero. -/
def mainRun (df : Frame) (ts : String) (fs : FS) : Except Err Nat × FS :=
  match load_energy df with
  | .error e => (.error e, fs)
  | .ok energy =>
    match build_eu_us_energy energy with
    | .error e => (.error e, fs)
    | .ok combined => (.ok 0, write_outputs combined ts fs)

/-- Process exit status: an uncaught `RuntimeError` terminates the
interpreter with status 1. -/
def exitCode : Except Err Nat → Nat
  | .ok n => n
  | .error _ => 1

/-- Build a full raw row for entity `c`, year `y` and nuclear share `v`
(the remaining numeric fields get fixed values, `renewables_share_energy`
is left null, and an extra `co2_emissions` column is present). -/
def mkRow (c : String) (y : ℚ) (v : ℚ) : Row :=
  [("country", Cell.str c), ("year", Cell.num (some y)),
   ("nuclear_share_energy", Cell.num (some v)),
   ("renewables_share_energy", Cell.num none),
   ("fossil_share_energy", Cell.num (some 3)),
   ("low_carbon_share_energy", Cell.num (some 4)),
   ("primary_energy_consumption", Cell.num (some 5)),
   ("co2_emissions", Cell.num (some 500))]

/-- The raw column list of the concrete test frames. -/
def rawCols : List String := expectedCols ++ ["co2_emissions"]

/-- A concrete raw table carrying both EU aliases and two US rows. -/
def dfW : Frame :=
  { cols := rawCols,
    rows := [mkRow "European Union (27)" 2020 10, mkRow "European Union (27)" 2019 11,
             mkRow "European Union" 2018 12, mkRow "United States" 2020 8,
             mkRow "United States" 2019 9] }

/-- A concrete raw table missing every required column except `country`. -/
def dfMissing : Frame := { cols := ["country"], rows := [] }

/-- A concrete raw table with no EU alias at all. -/
def dfNoEU : Frame := { cols := rawCols, rows := [mkRow "United States" 2020 8] }

/-- A concrete raw table that resolves the EU region but has no row for
the single US alias. -/
def dfNoUS : Frame := { cols := rawCols, rows := [mkRow "European Union (27)" 2020 10] }

/-- A concrete raw table with a duplicated (country, year) key. -/
def dfDup : Frame :=
  { cols := rawCols,
    rows := [mkRow "European Union (27)" 2020 10, mkRow "European Union (27)" 2020 10,
             mkRow "United States" 2020 8] }

lemma cellOf_cons_self {c : String} {v : Cell} {r : Row} :
    cellOf c ((c, v) :: r) = some v := by simp [cellOf]

lemma cellOf_cons_ne {k c : String} {v : Cell} {r : Row} (h : k ≠ c) :
    cellOf c ((k, v) :: r) = cellOf c r := by simp [cellOf, h]

lemma cellOf_keyed_of_mem {cs : List String} {g : String → Cell} {c : String}
    (hc : c ∈ cs) : cellOf c (cs.map (fun x => (x, g x))) = some (g c) := by
  induction cs with
  | nil => cases hc
  | cons x xs ih =>
    by_cases hx : x = c
    · subst hx; simp [cellOf]
    · rw [List.map_cons, cellOf_cons_ne hx]
      exact ih ((List.mem_cons.mp hc).resolve_left (fun h => hx h.symm))

lemma cellOf_keyed_of_not_mem {cs : List String} {g : String → Cell} {c : String}
    (hc : c ∉ cs) : cellOf c (cs.map (fun x => (x, g x))) = none := by
  induction cs with
  | nil => rfl
  | cons x xs ih =>
    rw [List.map_cons,
        cellOf_cons_ne (fun h => hc (by rw [← h]; exact List.mem_cons_self x xs))]
    exact ih (fun h => hc (List.mem_cons_of_mem x h))

lemma keys_keyed {cs : List String} {g : String → Cell} :
    (cs.map (fun x => (x, g x))).map Prod.fst = cs := by
  induction cs with
  | nil => rfl
  | cons x xs ih => simpa using ih

lemma cellOf_reindex_of_mem {cs : List String} {r : Row} {c : String} (hc : c ∈ cs) :
    cellOf c (reindex cs r) = some ((cellOf c r).getD dCell) :=
  cellOf_keyed_of_mem hc

lemma keys_reindex {cs : List String} {r : Row} :
    (reindex cs r).map Prod.fst = cs := by
  unfold reindex
  induction cs with
  | nil => rfl
  | cons x xs ih => simpa using ih

lemma setCell_keyed {cs : List String} {g : String → Cell} {c : String} {v : Cell} :
    setCell (cs.map (fun x => (x, g x))) c v =
      cs.map (fun x => (x, if x = c then v else g x)) := by
  unfold setCell
  rw [List.map_map]
  apply List.map_congr_left
  intro x _
  by_cases hx : x = c
  · subst hx; simp
  · simp [hx]

lemma reindex_keyed {cs : List String} {g : String → Cell} :
    reindex cs (cs.map (fun x => (x, g x))) = cs.map (fun x => (x, g x)) := by
  unfold reindex
  apply List.map_congr_left
  intro x hx
  rw [cellOf_keyed_of_mem hx]
  rfl

/-- The shape of every row of the normalized output: exactly the
`keep_cols` keys, the region cell holding the canonical code, and every
other cell read from the originating raw row (missing cells as NaN). -/
def normRow (code : String) (r : Row) : Row :=
  keepCols.map (fun c => (c, if c = "region" then Cell.str code else (cellOf c r).getD dCell))

lemma pipeline_row {a code : String} {r : Row} :
    setCell (reindex keepCols (("region", Cell.str a) :: r)) "region" (Cell.str code) =
      normRow code r := by
  unfold reindex normRow
  rw [setCell_keyed]
  apply List.map_congr_left
  intro x _
  by_cases hx : x = "region"
  · subst hx; simp
  · simp only [if_neg hx, cellOf_cons_ne (Ne.symm hx)]

lemma reindex_normRow {code : String} {r : Row} :
    reindex keepCols (normRow code r) = normRow code r :=
  reindex_keyed

lemma keys_normRow {code : String} {r : Row} :
    (normRow code r).map Prod.fst = keepCols := keys_keyed

lemma cellOf_normRow_region {code : String} {r : Row} :
    cellOf "region" (normRow code r) = some (Cell.str code) := by
  unfold normRow
  rw [cellOf_keyed_of_mem (by decide : "region" ∈ keepCols)]
  simp

lemma cellOf_normRow_ne {code c : String} {r : Row} (hc : c ∈ keepCols)
    (h : c ≠ "region") :
    cellOf c (normRow code r) = some ((cellOf c r).getD dCell) := by
  unfold normRow
  rw [cellOf_keyed_of_mem hc]
  simp [h]

lemma regionKey_normRow {code : String} {r : Row} :
    regionKey (normRow code r) = code := by
  unfold regionKey
  rw [cellOf_normRow_region]

lemma cellOf_normRow_year {code : String} {r : Row} :
    cellOf "year" (normRow code r) = some ((cellOf "year" r).getD dCell) :=
  cellOf_normRow_ne (by decide) (by decide)

lemma select_region_ok {df : Frame} {names : List String} {f : Frame}
    (h : select_region df names = .ok f) :
    ∃ a tl, names.filter (hasRowB df) = a :: tl ∧
      df.cols.contains "country" = true ∧ df.cols.contains "region" = false ∧
      f = { cols := "region" :: df.cols,
            rows := (df.rows.filter (countryIs a)).map
                      (fun r => ("region", Cell.str a) :: r) } := by
  unfold select_region at h
  split at h
  · exact absurd h (by simp)
  · next hc =>
    split at h
    · exact absurd h (by simp)
    · next a tl hfil =>
      split at h
      · exact absurd h (by simp)
      · next hr =>
        refine ⟨a, tl, hfil, by simpa using hc, by simpa using hr, ?_⟩
        exact ((Except.ok.injEq _ _).mp h).symm

lemma project_eq (f : Frame) (cs : List String) :
    project f cs =
      if (cs.filter (fun c => !(f.cols.contains c))).isEmpty then
        .ok { cols := cs, rows := f.rows.map (reindex cs) }
      else .error (.keyError (cs.filter (fun c => !(f.cols.contains c)))) := rfl

lemma project_ok {f : Frame} {cs : List String} {g : Frame}
    (h : project f cs = .ok g) :
    g = { cols := cs, rows := f.rows.map (reindex cs) } := by
  rw [project_eq] at h
  split at h
  · exact ((Except.ok.injEq _ _).mp h).symm
  · exact absurd h (by simp)

lemma setCol_keep {rows : List Row} {v : Cell} :
    Frame.setCol ⟨keepCols, rows⟩ "region" v =
      ⟨keepCols, rows.map (fun r => setCell r "region" v)⟩ := rfl

lemma concat_keep {r1 r2 : List Row} :
    Frame.concat ⟨keepCols, r1⟩ ⟨keepCols, r2⟩ =
      ⟨keepCols, (r1 ++ r2).map (reindex keepCols)⟩ := rfl

lemma sortFrame_keep {rows : List Row} :
    sortFrame ⟨keepCols, rows⟩ = .ok ⟨keepCols, sortRows rows⟩ := rfl

lemma chain_normRow {a code : String} {l : List Row} :
    ((((l.map (fun r => ("region", Cell.str a) :: r)).map (reindex keepCols)).map
        (fun r => setCell r "region" (Cell.str code))).map (reindex keepCols)) =
      l.map (normRow code) := by
  simp only [List.map_map]
  apply List.map_congr_left
  intro r _
  show reindex keepCols (setCell (reindex keepCols (("region", Cell.str a) :: r))
    "region" (Cell.str code)) = normRow code r
  rw [pipeline_row, reindex_normRow]

lemma build_ok_struct {df out : Frame} (h : build_eu_us_energy df = .ok out) :
    ∃ aE tE aU tU,
      euNames.filter (hasRowB df) = aE :: tE ∧
      usNames.filter (hasRowB df) = aU :: tU ∧
      out.cols = keepCols ∧
      out.rows = sortRows
        ((df.rows.filter (countryIs aE)).map (normRow "EU27") ++
         (df.rows.filter (countryIs aU)).map (normRow "US")) := by
  unfold build_eu_us_energy at h
  split at h
  · exact absurd h (by simp)
  · next eu0 hE =>
    split at h
    · exact absurd h (by simp)
    · next us0 hU =>
      split at h
      · exact absurd h (by simp)
      · next eu1 hPE =>
        split at h
        · exact absurd h (by simp)
        · next us1 hPU =>
          obtain ⟨aE, tE, hfE, _, _, heu0⟩ := select_region_ok hE
          obtain ⟨aU, tU, hfU, _, _, hus0⟩ := select_region_ok hU
          have heu1 := project_ok hPE
          have hus1 := project_ok hPU
          subst heu0 hus0 heu1 hus1
          simp only at h
          rw [setCol_keep, setCol_keep, concat_keep, sortFrame_keep] at h
          have hout := ((Except.ok.injEq _ _).mp h)
          refine ⟨aE, tE, aU, tU, hfE, hfU, ?_, ?_⟩
          · rw [← hout]
          · rw [← hout]
            show sortRows _ = _
            simp only [List.map_append]
            rw [chain_normRow, chain_normRow]

lemma load_energy_eq (df : Frame) :
    load_energy df =
      if (expectedCols.filter (fun c => !(df.cols.contains c))).isEmpty then .ok df
      else .error (.schemaError (expectedCols.filter (fun c => !(df.cols.contains c)))) := rfl

/-- C1: for every raw table and every alias list split as `l₁ ++ a :: l₂`
where no alias of `l₁` has a matching row and `a` does, `select_region`
selects exactly the rows of `a` — the first alias in list order with a
matching row — and rows labeled with any later alias are ignored
entirely (the result holds only rows whose entity name equals `a`). -/
theorem select_region_first_match (df : Frame) (l₁ l₂ : List String) (a : String)
    (hc : df.cols.contains "country" = true) (hr : df.cols.contains "region" = false)
    (h₁ : ∀ b ∈ l₁, hasRowB df b = false) (ha : hasRowB df a = true) :
    select_region df (l₁ ++ a :: l₂) =
      .ok { cols := "region" :: df.cols,
            rows := (df.rows.filter (countryIs a)).map
                      (fun r => ("region", Cell.str a) :: r) } := by
  have hnil : l₁.filter (hasRowB df) = [] :=
    List.filter_eq_nil_iff.mpr (fun b hb => by rw [h₁ b hb]; exact Bool.false_ne_true)
  have hfil : (l₁ ++ a :: l₂).filter (hasRowB df) = a :: l₂.filter (hasRowB df) := by
    rw [List.filter_append, hnil, List.filter_cons_of_pos ha, List.nil_append]
  simp only [select_region, hc, Bool.not_true, Bool.false_eq_true, if_false, hfil, hr]

/-- Witness for C1 at a concrete table holding rows for both EU aliases:
the "European Union" rows are present in the raw data yet the selection
keeps only the "European Union (27)" rows. -/
theorem select_region_first_match_witness :
    hasRowB dfW "European Union" = true ∧
    select_region dfW euNames =
      .ok { cols := "region" :: dfW.cols,
            rows := (dfW.rows.filter (countryIs "European Union (27)")).map
                      (fun r => ("region", Cell.str "European Union (27)") :: r) } :=
  ⟨by decide,
   select_region_first_match dfW [] ["European Union"] "European Union (27)"
     (by decide) (by decide) (by simp) (by decide)⟩

/-- C2: `load` fails with a schema error listing exactly the required
columns that are absent whenever at least one is missing, and succeeds
(returning the table unchanged) exactly when every required column is
present, regardless of extra columns. -/
theorem load_energy_schema_gate (df : Frame) :
    (load_energy df = .ok df ↔ ∀ c ∈ expectedCols, df.cols.contains c = true) ∧
    (∀ m, load_energy df = .error (.schemaError m) ↔
      (m = expectedCols.filter (fun c => !(df.cols.contains c)) ∧ m ≠ [])) := by
  rw [load_energy_eq]
  by_cases hm : (expectedCols.filter (fun c => !(df.cols.contains c))).isEmpty
  · rw [if_pos hm]
    have hnil : expectedCols.filter (fun c => !(df.cols.contains c)) = [] := by
      simpa using hm
    constructor
    · constructor
      · intro _ c hc
        have := List.filter_eq_nil_iff.mp hnil c hc
        simpa using this
      · intro _; rfl
    · intro m
      constructor
      · intro h; exact absurd h (by simp)
      · rintro ⟨rfl, hne⟩; exact absurd hnil hne
  · rw [if_neg hm]
    have hne : expectedCols.filter (fun c => !(df.cols.contains c)) ≠ [] := by
      simpa using hm
    constructor
    · constructor
      · intro h; exact absurd h (by simp)
      · intro hall
        exfalso
        apply hne
        exact List.filter_eq_nil_iff.mpr (fun c hc => by rw [hall c hc]; simp)
    · intro m
      constructor
      · intro h
        have := (Except.error.injEq _ _).mp h
        have hm' := (Err.schemaError.injEq _ _).mp this
        exact ⟨hm'.symm, hm' ▸ hne⟩
      · rintro ⟨rfl, _⟩; rfl

/-- Witness for C2: a table with only a `country` column is rejected with
exactly the six missing required columns, and the full test table is
accepted. -/
theorem load_energy_schema_gate_witness :
    load_energy dfMissing =
      .error (.schemaError ["year", "nuclear_share_energy", "renewables_share_energy",
        "fossil_share_energy", "low_carbon_share_energy", "primary_energy_consumption"]) ∧
    load_energy dfW = .ok dfW :=
  ⟨((load_energy_schema_gate dfMissing).2 _).mpr (by constructor <;> decide),
   ((load_energy_schema_gate dfW).1).mpr (by decide)⟩

/-- Does `p` occur as a prefix of `l`? -/
def subListAt (p l : List Char) : Bool :=
  match p, l with
  | [], _ => true
  | _ :: _, [] => false
  | a :: as, b :: bs => a == b && subListAt as bs

/-- Does `p` occur as a contiguous substring of `l`? -/
def hasSubList (p : List Char) : List Char → Bool
  | [] => subListAt p []
  | c :: t => subListAt p (c :: t) || hasSubList p t

/-- Does the string `sub` occur inside the string `s`? -/
def strContainsB (s sub : String) : Bool := hasSubList sub.data s.data

/-- The load-then-reduce composition performed by `main` before any
output is written. -/
def loadBuild (df : Frame) : Except Err Frame :=
  match load_energy df with
  | .error e => .error e
  | .ok energy => build_eu_us_energy energy

lemma loadBuild_eq_error {df : Frame} {e : Err} (h : load_energy df = .error e) :
    loadBuild df = .error e := by
  unfold loadBuild
  rw [h]

lemma loadBuild_eq_ok {df energy : Frame} (h : load_energy df = .ok energy) :
    loadBuild df = build_eu_us_energy energy := by
  unfold loadBuild
  rw [h]

lemma load_energy_ok {df energy : Frame} (h : load_energy df = .ok energy) :
    energy = df := by
  rw [load_energy_eq] at h
  split at h
  · exact ((Except.ok.injEq _ _).mp h).symm
  · exact absurd h (by simp)

lemma mainRun_eq2 (df : Frame) (ts : String) (fs : FS) :
    mainRun df ts fs =
      match loadBuild df with
      | .error e => (.error e, fs)
      | .ok combined => (.ok 0, write_outputs combined ts fs) := by
  unfold mainRun loadBuild
  rcases load_energy df with e | energy
  · rfl
  · rfl

/-- C3 counterexample: on a raw table containing no EU alias the
reduction fails with the unresolved-region error, but the error message
does not name the canonical region code "EU27" anywhere — it only lists
the alias spellings.  The claim that the message names both the
canonical code and the alias list is therefore false. -/
theorem unresolved_region_message_lacks_code :
    build_eu_us_energy dfNoEU = .error (.unresolvedRegion euNames) ∧
    strContainsB (errMsg (.unresolvedRegion euNames)) "EU27" = false := ⟨rfl, rfl⟩

lemma select_region_unresolved {df : Frame} {names : List String}
    (hc : df.cols.contains "country" = true)
    (hfil : names.filter (hasRowB df) = []) :
    select_region df names = .error (.unresolvedRegion names) := by
  simp only [select_region, hc, Bool.not_true, Bool.false_eq_true, if_false, hfil]

lemma select_region_ok_of_filter {df : Frame} {names : List String} {a : String}
    {tl : List String} (hc : df.cols.contains "country" = true)
    (hr : df.cols.contains "region" = false)
    (hfil : names.filter (hasRowB df) = a :: tl) :
    select_region df names =
      .ok { cols := "region" :: df.cols,
            rows := (df.rows.filter (countryIs a)).map
                      (fun r => ("region", Cell.str a) :: r) } := by
  simp only [select_region, hc, Bool.not_true, Bool.false_eq_true, if_false, hfil, hr]

lemma filter_eq_nil_of_all_false {df : Frame} {names : List String}
    (h : ∀ n ∈ names, hasRowB df n = false) :
    names.filter (hasRowB df) = [] :=
  List.filter_eq_nil_iff.mpr (fun b hb => by rw [h b hb]; exact Bool.false_ne_true)

/-- C3 (amended): for every canonical region whose aliases all fail to
match a row — whether it is the EU region (processed first) or the US
region (processed second, after the EU region resolved) — the reduction
fails with an `UnresolvedRegionError` whose message names that region's
full alias list (every alias occurs verbatim in the message), and the
whole reduction is aborted: no normalized frame is produced and, on any
reduction failure, no output file is touched (no partial per-region
output). -/
theorem unresolved_region_aborts (df : Frame)
    (hc : df.cols.contains "country" = true) :
    ((∀ n ∈ euNames, hasRowB df n = false) →
       build_eu_us_energy df = .error (.unresolvedRegion euNames)) ∧
    ((∃ n ∈ euNames, hasRowB df n = true) →
     (∀ n ∈ usNames, hasRowB df n = false) →
     df.cols.contains "region" = false →
       build_eu_us_energy df = .error (.unresolvedRegion usNames)) ∧
    (∀ n ∈ euNames, strContainsB (errMsg (.unresolvedRegion euNames)) n = true) ∧
    (∀ n ∈ usNames, strContainsB (errMsg (.unresolvedRegion usNames)) n = true) ∧
    (∀ e ts fs, build_eu_us_energy df = .error e → (mainRun df ts fs).2 = fs) := by
  refine ⟨?_, ?_, by decide, by decide, ?_⟩
  · intro h
    unfold build_eu_us_energy
    rw [select_region_unresolved hc (filter_eq_nil_of_all_false h)]
  · rintro ⟨n, hn, hnT⟩ hUS hr
    have hmem : n ∈ euNames.filter (hasRowB df) := List.mem_filter.mpr ⟨hn, hnT⟩
    obtain ⟨a, tl, hfE⟩ := List.exists_cons_of_ne_nil (List.ne_nil_of_mem hmem)
    unfold build_eu_us_energy
    rw [select_region_ok_of_filter hc hr hfE,
        select_region_unresolved hc (filter_eq_nil_of_all_false hUS)]
  · intro e ts fs hbuild
    rw [mainRun_eq2]
    have hLB : ∃ e', loadBuild df = .error e' := by
      rcases hl : load_energy df with e' | energy
      · exact ⟨e', loadBuild_eq_error hl⟩
      · exact ⟨e, by rw [loadBuild_eq_ok hl, load_energy_ok hl, hbuild]⟩
    obtain ⟨e', he⟩ := hLB
    rw [he]

/-- Witness for the amended C3 at two concrete tables: one with only US
rows (the EU region is unresolved) and one with only EU rows (the EU
region resolves but the US region is unresolved); in both cases the run
fails naming the failing region's alias list and writes nothing. -/
theorem unresolved_region_aborts_witness :
    build_eu_us_energy dfNoEU = .error (.unresolvedRegion euNames) ∧
    build_eu_us_energy dfNoUS = .error (.unresolvedRegion usNames) ∧
    (∀ ts fs, (mainRun dfNoEU ts fs).2 = fs) ∧
    (∀ ts fs, (mainRun dfNoUS ts fs).2 = fs) := by
  have hEU := unresolved_region_aborts dfNoEU (by decide)
  have hUS := unresolved_region_aborts dfNoUS (by decide)
  have h₁ : build_eu_us_energy dfNoEU = .error (.unresolvedRegion euNames) :=
    hEU.1 (by decide)
  have h₂ : build_eu_us_energy dfNoUS = .error (.unresolvedRegion usNames) :=
    hUS.2.1 ⟨"European Union (27)", by decide, by decide⟩ (by decide) (by decide)
  exact ⟨h₁, h₂, fun ts fs => hEU.2.2.2.2 _ ts fs h₁, fun ts fs => hUS.2.2.2.2 _ ts fs h₂⟩

/-- C8: the pipeline is deterministic — two successful runs on the same
raw table produce byte-identical normalized CSV output, their metadata
records agree on everything except possibly the timestamp, and with a
fixed clock the runs are byte-identical in full. -/
theorem pipeline_deterministic (df : Frame) (ts₁ ts₂ : String) (fs₁ fs₂ : FS)
    (n₁ n₂ : Nat) (g₁ g₂ : FS)
    (h₁ : mainRun df ts₁ fs₁ = (.ok n₁, g₁)) (h₂ : mainRun df ts₂ fs₂ = (.ok n₂, g₂)) :
    g₁.csvFile = g₂.csvFile ∧
    (write_meta ts₁).sources = (write_meta ts₂).sources ∧
    (write_meta ts₁).notes = (write_meta ts₂).notes ∧
    (ts₁ = ts₂ → g₁ = g₂) := by
  rw [mainRun_eq2] at h₁ h₂
  rcases hP : loadBuild df with e | combined
  · rw [hP] at h₁
    have hbad : (Except.error e : Except Err Nat) = .ok n₁ := congrArg Prod.fst h₁
    exact Except.noConfusion hbad
  · rw [hP] at h₁ h₂
    have hg₁ : write_outputs combined ts₁ fs₁ = g₁ := congrArg Prod.snd h₁
    have hg₂ : write_outputs combined ts₂ fs₂ = g₂ := congrArg Prod.snd h₂
    subst hg₁ hg₂
    refine ⟨rfl, rfl, rfl, ?_⟩
    intro hts
    rw [hts]
    rfl

/-- Witness for C8: two runs at different clock values and different
initial filesystem contents yield the same CSV bytes and the same
metadata sources. -/
theorem pipeline_deterministic_witness :
    (mainRun dfW "2024-01-01T00:00:00" ⟨none, none⟩).2.csvFile =
      (mainRun dfW "2024-06-01T12:00:00" ⟨some "old", some "old"⟩).2.csvFile ∧
    (write_meta "2024-01-01T00:00:00").sources = (write_meta "2024-06-01T12:00:00").sources :=
  by
    have h := pipeline_deterministic dfW "2024-01-01T00:00:00" "2024-06-01T12:00:00"
      ⟨none, none⟩ ⟨some "old", some "old"⟩ 0 0
      (mainRun dfW "2024-01-01T00:00:00" ⟨none, none⟩).2
      (mainRun dfW "2024-06-01T12:00:00" ⟨some "old", some "old"⟩).2 rfl rfl
    exact ⟨h.1, h.2.1⟩

/-- C9: output is all-or-nothing per run — a run that fails with a
schema error or an unresolved-region error leaves the filesystem exactly
as it was and exits with non-zero status, while a successful run
persists both the normalized table and the metadata file. -/
theorem main_all_or_nothing (df : Frame) (ts : String) (fs : FS)
    (r : Except Err Nat) (fs' : FS) (h : mainRun df ts fs = (r, fs')) :
    (((∃ m, r = .error (.schemaError m)) ∨ (∃ ns, r = .error (.unresolvedRegion ns))) →
      fs' = fs ∧ exitCode r ≠ 0) ∧
    (∀ n, r = .ok n → (∃ s, fs'.csvFile = some s) ∧ (∃ t, fs'.metaFile = some t)) := by
  unfold mainRun at h
  split at h
  · have hr : Except.error _ = r := congrArg Prod.fst h
    have hfs : fs = fs' := congrArg Prod.snd h
    subst hr hfs
    constructor
    · intro _
      exact ⟨rfl, by simp [exitCode]⟩
    · intro n hn
      exact absurd hn (by simp)
  · split at h
    · have hr : Except.error _ = r := congrArg Prod.fst h
      have hfs : fs = fs' := congrArg Prod.snd h
      subst hr hfs
      constructor
      · intro _
        exact ⟨rfl, by simp [exitCode]⟩
      · intro n hn
        exact absurd hn (by simp)
    · have hr : Except.ok 0 = r := congrArg Prod.fst h
      have hfs : write_outputs _ ts fs = fs' := congrArg Prod.snd h
      subst hr hfs
      constructor
      · rintro (⟨m, hm⟩ | ⟨ns, hns⟩)
        · exact absurd hm (by simp)
        · exact absurd hns (by simp)
      · intro n _
        exact ⟨⟨_, rfl⟩, ⟨_, rfl⟩⟩

/-- Witness for C9: on the table missing required columns, the run
changes nothing on disk and exits non-zero. -/
theorem main_all_or_nothing_witness :
    (mainRun dfMissing "t" ⟨none, none⟩).2 = (⟨none, none⟩ : FS) ∧
    exitCode (mainRun dfMissing "t" ⟨none, none⟩).1 ≠ 0 :=
  (main_all_or_nothing dfMissing "t" ⟨none, none⟩ _ _ rfl).1 (Or.inl ⟨_, rfl⟩)

/-- The adjacent-row invariant of the sorted output: equal regions with
non-decreasing years, or strictly lexically increasing regions. -/
def adjacentOk (a b : Row) : Prop :=
  (regionKey a = regionKey b ∧ yearKey a ≤ yearKey b) ∨
    strLtB (regionKey a) (regionKey b) = true

lemma sortRows_chain (l : List Row) : List.Chain' adjacentOk (sortRows l) := by
  have hs : List.Pairwise rowLE (sortRows l) := List.sorted_insertionSort rowLE l
  refine List.Pairwise.chain' (hs.imp ?_)
  intro a b hab
  unfold rowLE rowLeB at hab
  simp only [Bool.or_eq_true, Bool.and_eq_true, beq_iff_eq, decide_eq_true_eq] at hab
  rcases hab with h | ⟨h1, h2⟩
  · exact Or.inr h
  · exact Or.inl ⟨h1, h2⟩

/-- C5: in every normalized output table, every pair of adjacent rows
either shares the region with a non-decreasing year, or the first row's
region sorts lexically strictly before the second row's region. -/
theorem build_sort_invariant (df out : Frame) (h : build_eu_us_energy df = .ok out) :
    List.Chain' adjacentOk out.rows := by
  obtain ⟨aE, tE, aU, tU, _, _, _, hrows⟩ := build_ok_struct h
  rw [hrows]
  exact sortRows_chain _

/-- Witness for C5 on the concrete test table (four output rows). -/
theorem build_sort_invariant_witness :
    List.Chain' adjacentOk ((build_eu_us_energy dfW).toOption.getD FrameD).rows :=
  build_sort_invariant dfW _ rfl

/-- C6: every normalized row carries exactly the seven fixed output
columns, in order, and nothing else — all other raw columns (such as
`co2_emissions`) are dropped. -/
theorem build_projection_columns (df out : Frame) (h : build_eu_us_energy df = .ok out) :
    out.cols = keepCols ∧ ∀ r ∈ out.rows, r.map Prod.fst = keepCols := by
  obtain ⟨aE, tE, aU, tU, _, _, hcols, hrows⟩ := build_ok_struct h
  refine ⟨hcols, ?_⟩
  intro r hr
  rw [hrows] at hr
  simp only [sortRows, List.mem_insertionSort] at hr
  rcases List.mem_append.mp hr with hm | hm <;>
    obtain ⟨r₀, _, rfl⟩ := List.mem_map.mp hm <;>
    exact keys_normRow

/-- Witness for C6 on the concrete test table, whose raw rows carry an
extra `co2_emissions` column. -/
theorem build_projection_columns_witness :
    ((build_eu_us_energy dfW).toOption.getD FrameD).cols = keepCols ∧
    ∀ r ∈ ((build_eu_us_energy dfW).toOption.getD FrameD).rows,
      r.map Prod.fst = keepCols :=
  build_projection_columns dfW _ rfl

/-- C7: values pass through unchanged — every raw row selected for a
region yields a normalized row whose region cell is the canonical code
and whose six numeric cells hold exactly the raw row's values, a missing
raw cell staying NaN (null) rather than becoming zero. -/
theorem build_value_pass_through (df out : Frame) (code a : String) (r : Row)
    (h : build_eu_us_energy df = .ok out)
    (hsel : (code = "EU27" ∧ chosenAlias df euNames = some a) ∨
            (code = "US" ∧ chosenAlias df usNames = some a))
    (hrow : r ∈ df.rows) (hcountry : countryIs a r = true) :
    ∃ s ∈ out.rows, cellOf "region" s = some (Cell.str code) ∧
      ∀ c ∈ numCols, cellOf c s = some ((cellOf c r).getD dCell) := by
  obtain ⟨aE, tE, aU, tU, hfE, hfU, _, hrows⟩ := build_ok_struct h
  have hnc : ∀ c ∈ numCols, c ∈ keepCols ∧ ¬(c = "region") := by decide
  refine ⟨normRow code r, ?_, cellOf_normRow_region, ?_⟩
  · rw [hrows]
    simp only [sortRows, List.mem_insertionSort]
    apply List.mem_append.mpr
    rcases hsel with ⟨hcode, hA⟩ | ⟨hcode, hA⟩
    · left
      have haE : a = aE := by
        unfold chosenAlias at hA
        rw [hfE] at hA
        simpa using hA.symm
      subst hcode haE
      exact List.mem_map_of_mem _ (List.mem_filter.mpr ⟨hrow, hcountry⟩)
    · right
      have haU : a = aU := by
        unfold chosenAlias at hA
        rw [hfU] at hA
        simpa using hA.symm
      subst hcode haU
      exact List.mem_map_of_mem _ (List.mem_filter.mpr ⟨hrow, hcountry⟩)
  · intro c hc
    exact cellOf_normRow_ne (hnc c hc).1 (hnc c hc).2

/-- Witness for C7: the EU27 2020 raw row of the concrete table, which
has a null `renewables_share_energy` cell, reappears in the output with
all six numeric cells unchanged (the null still null). -/
theorem build_value_pass_through_witness :
    ∃ s ∈ ((build_eu_us_energy dfW).toOption.getD FrameD).rows,
      cellOf "region" s = some (Cell.str "EU27") ∧
      ∀ c ∈ numCols,
        cellOf c s = some ((cellOf c (mkRow "European Union (27)" 2020 10)).getD dCell) :=
  build_value_pass_through dfW _ "EU27" "European Union (27)"
    (mkRow "European Union (27)" 2020 10) rfl (Or.inl ⟨rfl, rfl⟩)
    (by decide) (by decide)

/-- Distinctness of raw (entity, year) keys between two raw rows. -/
def rawKeyDistinct (r s : Row) : Prop :=
  ¬((cellOf "country" r).getD dCell = (cellOf "country" s).getD dCell ∧
    (cellOf "year" r).getD dCell = (cellOf "year" s).getD dCell)

/-- Distinctness of normalized (region, year) keys between two rows. -/
def normKeyDistinct (r s : Row) : Prop :=
  ¬(cellOf "region" r = cellOf "region" s ∧ cellOf "year" r = cellOf "year" s)

instance : DecidableRel rawKeyDistinct := fun _ _ =>
  inferInstanceAs (Decidable (¬(_ ∧ _)))

instance : DecidableRel normKeyDistinct := fun _ _ =>
  inferInstanceAs (Decidable (¬(_ ∧ _)))

/-- C4 counterexample: the reducer performs no deduplication.  On a raw
table holding the "European Union (27)" 2020 row twice, the reduction
succeeds and the normalized output holds two records keyed
(EU27, 2020) — so the claim that the output has at most one record per
(region, year) for every raw table is false. -/
theorem build_duplicate_keys :
    (build_eu_us_energy dfDup).map
      (fun f => (f.rows.filter (fun r =>
        cellOf "region" r == some (Cell.str "EU27") &&
        cellOf "year" r == some (Cell.num (some 2020)))).length) = .ok 2 := rfl

/-- C4 (amended): whenever the raw rows have pairwise distinct
(entity, year) keys — the uniqueness the spec trusts upstream — the
normalized output has at most one record per (region, year); and
unconditionally every output record's region is one of exactly the two
canonical codes and the rows are ordered by region then ascending
year. -/
theorem build_keys_unique (df out : Frame) (h : build_eu_us_energy df = .ok out) :
    (df.rows.Pairwise rawKeyDistinct → out.rows.Pairwise normKeyDistinct) ∧
    (∀ r ∈ out.rows, cellOf "region" r = some (Cell.str "EU27") ∨
       cellOf "region" r = some (Cell.str "US")) ∧
    List.Chain' adjacentOk out.rows := by
  obtain ⟨aE, tE, aU, tU, hfE, hfU, _, hrows⟩ := build_ok_struct h
  refine ⟨?_, ?_, ?_⟩
  · intro huniq
    rw [hrows]
    have hperm := List.perm_insertionSort rowLE
      ((df.rows.filter (countryIs aE)).map (normRow "EU27") ++
       (df.rows.filter (countryIs aU)).map (normRow "US"))
    refine (List.Perm.pairwise_iff
      (fun {_ _} hab hcon => hab ⟨hcon.1.symm, hcon.2.symm⟩) hperm).mpr ?_
    rw [List.pairwise_append]
    have keyF : ∀ (b : String) (r₀ : Row), countryIs b r₀ = true →
        (cellOf "country" r₀).getD dCell = Cell.str b := by
      intro b r₀ hb
      unfold countryIs at hb
      rw [beq_iff_eq] at hb
      rw [hb]
      rfl
    have withinRegion : ∀ (code b : String),
        List.Pairwise (fun r s => normKeyDistinct (normRow code r) (normRow code s))
          (df.rows.filter (countryIs b)) := by
      intro code b
      have hfilt : (df.rows.filter (countryIs b)).Pairwise rawKeyDistinct :=
        huniq.sublist (List.filter_sublist _)
      refine hfilt.imp_of_mem ?_
      intro r s hr hs hrs hcon
      apply hrs
      have hbr := (List.mem_filter.mp hr).2
      have hbs := (List.mem_filter.mp hs).2
      refine ⟨(keyF b r hbr).trans (keyF b s hbs).symm, ?_⟩
      have hy := hcon.2
      rw [cellOf_normRow_year, cellOf_normRow_year] at hy
      exact (Option.some.injEq _ _).mp hy
    constructor
    · rw [List.pairwise_map]
      exact withinRegion "EU27" aE
    constructor
    · rw [List.pairwise_map]
      exact withinRegion "US" aU
    · intro x hx y hy
      obtain ⟨r₀, _, rfl⟩ := List.mem_map.mp hx
      obtain ⟨s₀, _, rfl⟩ := List.mem_map.mp hy
      intro hcon
      have hreg := hcon.1
      rw [cellOf_normRow_region, cellOf_normRow_region] at hreg
      exact absurd hreg (by simp)
  · intro r hr
    rw [hrows] at hr
    simp only [sortRows, List.mem_insertionSort] at hr
    rcases List.mem_append.mp hr with hm | hm
    · obtain ⟨r₀, _, rfl⟩ := List.mem_map.mp hm
      exact Or.inl cellOf_normRow_region
    · obtain ⟨r₀, _, rfl⟩ := List.mem_map.mp hm
      exact Or.inr cellOf_normRow_region
  · rw [hrows]
    exact sortRows_chain _

/-- Witness for the amended C4 on the concrete test table, whose raw
(entity, year) keys are pairwise distinct. -/
theorem build_keys_unique_witness :
    ((build_eu_us_energy dfW).toOption.getD FrameD).rows.Pairwise normKeyDistinct :=
  (build_keys_unique dfW _ rfl).1 (by decide)

/-- A store of live DataFrame objects; a Python variable holding a frame
is an index into the store, and in-place mutation (`insert`,
`sort_values(inplace=True)`, column assignment) updates the store at
that index. -/
abbrev Store := List Frame

/-- Heap-level `select_region`: reads the caller's frame at index `i`,
allocates the filtered `.copy()` as a fresh object and mutates only that
fresh object with `insert`.  Returns the index of the new frame together
with the final store (also on failure, since a raised exception leaves
all existing objects as they were). -/
def select_regionS (st : Store) (i : Nat) (names : List String) :
    Except Err Nat × Store :=
  let df := st.getD i FrameD
  if !(df.cols.contains "country") then (.error (.keyError ["country"]), st)
  else
    match names.filter (hasRowB df) with
    | [] => (.error (.unresolvedRegion names), st)
    | a :: _ =>
      let st1 := st ++ [{ cols := df.cols, rows := df.rows.filter (countryIs a) }]
      let j := st.length
      if (st1.getD j FrameD).cols.contains "region" then
        (.error (.insertError "region"), st1)
      else
        (.ok j, st1.set j
          { cols := "region" :: (st1.getD j FrameD).cols,
            rows := (st1.getD j FrameD).rows.map (fun r => ("region", Cell.str a) :: r) })

/-- Heap-level `build_eu_us_energy`: every intermediate frame
(`eu_df[keep_cols].copy()`, `pd.concat`) is a fresh allocation, and the
in-place operations (`eu_df["region"] = ...`, `sort_values(...,
inplace=True)`) mutate only those fresh objects, never the caller's raw
frame at index `i`. -/
def build_eu_us_energyS (st : Store) (i : Nat) : Except Err Nat × Store :=
  match select_regionS st i euNames with
  | (.error e, st1) => (.error e, st1)
  | (.ok ei, st1) =>
    match select_regionS st1 i usNames with
    | (.error e, st2) => (.error e, st2)
    | (.ok ui, st2) =>
      match project (st2.getD ei FrameD) keepCols with
      | .error e => (.error e, st2)
      | .ok pe =>
        let st3 := st2 ++ [pe]
        let ei2 := st2.length
        match project (st3.getD ui FrameD) keepCols with
        | .error e => (.error e, st3)
        | .ok pu =>
          let st4 := st3 ++ [pu]
          let ui2 := st3.length
          let st5 := st4.set ei2 ((st4.getD ei2 FrameD).setCol "region" (Cell.str "EU27"))
          let st6 := st5.set ui2 ((st5.getD ui2 FrameD).setCol "region" (Cell.str "US"))
          let st7 := st6 ++ [Frame.concat (st6.getD ei2 FrameD) (st6.getD ui2 FrameD)]
          let ci := st6.length
          match sortFrame (st7.getD ci FrameD) with
          | .error e => (.error e, st7)
          | .ok sf => (.ok ci, st7.set ci sf)

lemma selS_preserves (st : Store) (i k : Nat) (names : List String)
    (hk : k < st.length) :
    ((select_regionS st i names).2)[k]? = st[k]? ∧
      st.length ≤ (select_regionS st i names).2.length := by
  dsimp only [select_regionS]
  split
  · exact ⟨rfl, le_refl _⟩
  · split
    · exact ⟨rfl, le_refl _⟩
    · split
      · refine ⟨List.getElem?_append_left hk, ?_⟩
        simp
      · constructor
        · dsimp only
          rw [List.getElem?_set_ne (by omega : st.length ≠ k)]
          exact List.getElem?_append_left hk
        · dsimp only
          simp

/-- C10: the raw table passed to the reducer is left unchanged whether
the reduction succeeds or fails — selection, the region-column insert,
projection, renaming and sorting all mutate only freshly allocated
frames, so the caller's frame at index `i` holds the same columns and
rows after `build_eu_us_energy` as before. -/
theorem build_preserves_input_frame (st : Store) (i : Nat) (df : Frame)
    (h : st[i]? = some df) :
    ((build_eu_us_energyS st i).2)[i]? = some df := by
  have hi : i < st.length := (List.getElem?_eq_some.mp h).1
  dsimp only [build_eu_us_energyS]
  split
  next e st1 heq1 =>
    have hp1 := (selS_preserves st i i euNames hi).1
    rw [heq1] at hp1
    exact hp1.trans h
  next ei st1 heq1 =>
    have hps := selS_preserves st i i euNames hi
    rw [heq1] at hps
    obtain ⟨hp1, hl1⟩ := hps
    have hi1 : i < st1.length := lt_of_lt_of_le hi hl1
    have h1 : st1[i]? = some df := hp1.trans h
    split
    next e st2 heq2 =>
      have hp2 := (selS_preserves st1 i i usNames hi1).1
      rw [heq2] at hp2
      exact hp2.trans h1
    next ui st2 heq2 =>
      have hps2 := selS_preserves st1 i i usNames hi1
      rw [heq2] at hps2
      obtain ⟨hp2, hl2⟩ := hps2
      have hi2 : i < st2.length := lt_of_lt_of_le hi1 hl2
      have h2 : st2[i]? = some df := hp2.trans h1
      split
      next e heq3 => exact h2
      next pe heq3 =>
        split
        next e heq4 =>
          dsimp only
          rw [List.getElem?_append_left hi2]
          exact h2
        next pu heq4 =>
          split
          next e heq5 =>
            dsimp only
            rw [List.getElem?_append_left
                  (show i < ((((st2 ++ [pe]) ++ [pu]).set st2.length _).set
                    (st2 ++ [pe]).length _).length by
                  simp only [List.length_set, List.length_append,
                    List.length_cons, List.length_nil]
                  omega),
                List.getElem?_set_ne
                  (show (st2 ++ [pe]).length ≠ i by
                    simp only [List.length_append, List.length_cons, List.length_nil]
                    omega),
                List.getElem?_set_ne (show st2.length ≠ i by omega),
                List.getElem?_append_left
                  (show i < (st2 ++ [pe]).length by
                    simp only [List.length_append, List.length_cons, List.length_nil]
                    omega),
                List.getElem?_append_left hi2]
            exact h2
          next sf heq5 =>
            dsimp only
            rw [List.getElem?_set_ne
                  (show ((((st2 ++ [pe]) ++ [pu]).set st2.length _).set
                      (st2 ++ [pe]).length _).length ≠ i by
                    simp only [List.length_set, List.length_append,
                      List.length_cons, List.length_nil]
                    omega),
                List.getElem?_append_left
                  (show i < ((((st2 ++ [pe]) ++ [pu]).set st2.length _).set
                    (st2 ++ [pe]).length _).length by
                  simp only [List.length_set, List.length_append,
                    List.length_cons, List.length_nil]
                  omega),
                List.getElem?_set_ne
                  (show (st2 ++ [pe]).length ≠ i by
                    simp only [List.length_append, List.length_cons, List.length_nil]
                    omega),
                List.getElem?_set_ne (show st2.length ≠ i by omega),
                List.getElem?_append_left
                  (show i < (st2 ++ [pe]).length by
                    simp only [List.length_append, List.length_cons, List.length_nil]
                    omega),
                List.getElem?_append_left hi2]
            exact h2

/-- Witness for C10: a concrete one-frame store is unchanged at index 0
by a full successful reduction. -/
theorem build_preserves_input_frame_witness :
    ((build_eu_us_energyS [dfW] 0).2)[0]? = some dfW :=
  build_preserves_input_frame [dfW] 0 dfW rfl
